import Mathlib

/-
Formal model of the pdf summarizer backend (src/backend of the repository).
The pure structure of the code is translated into Lean; the external
capabilities (token counter, completion backend, vector store, file system)
appear as function parameters or as explicit event traces.
-/

namespace Summarizer

/-
Section: text cleaning, from pdf_utils.clean_ocr_text.
The four regex substitutions of the source are modelled as left-to-right
scans over the character list, in the order the source applies them:
carriage-return-newline to newline, runs of spaces and tabs to one space,
hyphen-newline-letter to letter, runs of two or more newlines to exactly
two, and finally a whitespace strip.
-/

def replCRLF : List Char → List Char
  | '\r' :: '\n' :: rest => '\n' :: replCRLF rest
  | c :: rest => c :: replCRLF rest
  | [] => []

def isSpTab (c : Char) : Bool := c = ' ' || c = '\t'

def collapseRunAux : Bool → List Char → List Char
  | _, [] => []
  | inRun, c :: rest =>
    if isSpTab c then
      if inRun then collapseRunAux true rest
      else ' ' :: collapseRunAux true rest
    else c :: collapseRunAux false rest

def isAsciiLetter (c : Char) : Bool := ('a' ≤ c && c ≤ 'z') || ('A' ≤ c && c ≤ 'Z')

def fixHyphen : List Char → List Char
  | '-' :: '\n' :: c :: rest =>
    if isAsciiLetter c then c :: fixHyphen rest
    else '-' :: fixHyphen ('\n' :: c :: rest)
  | c :: rest => c :: fixHyphen rest
  | [] => []

def collapseNLAux : Nat → List Char → List Char
  | _, [] => []
  | seen, '\n' :: rest =>
    if seen < 2 then '\n' :: collapseNLAux (seen + 1) rest
    else collapseNLAux seen rest
  | _, c :: rest => c :: collapseNLAux 0 rest

-- python str.strip: drop leading and trailing whitespace characters.
def pyStrip (s : String) : String :=
  String.mk (((s.data.dropWhile Char.isWhitespace).reverse.dropWhile Char.isWhitespace).reverse)

def cleanOcrText (s : String) : String :=
  if s = "" then ""
  else pyStrip (String.mk (collapseNLAux 0 (fixHyphen (collapseRunAux false (replCRLF s.data)))))

/-
Section: page extraction, from pdf_utils.extract_pdf_chunks.
A page is modelled by the text the native extractor returned (empty when
extract_text raised or gave nothing) and by the outcome of the render-and-
recognize fallback: some t when rendering produced an image and the
recognizer returned t (possibly empty), none when rendering raised or
produced no image, in which case the source keeps the native text.
-/

structure PageData where
  native : String
  ocr : Option String
deriving DecidableEq

def pageRawText (p : PageData) : String :=
  if (pyStrip p.native).length < 20 then
    match p.ocr with
    | some t => t
    | none => p.native
  else p.native

def pageText (p : PageData) : String := cleanOcrText (pageRawText p)

structure Chunk where
  text : String
  page : Nat
  filename : String
deriving DecidableEq

-- The while loop slicing the page text into pieces of at most 3000
-- characters; cap counts the remaining capacity of the piece being built
-- and acc holds that piece reversed.
def splitChunksAux : Nat → List Char → List Char → List (List Char)
  | _, acc, [] => if acc = [] then [] else [acc.reverse]
  | 0, acc, c :: rest => acc.reverse :: splitChunksAux 2999 [c] rest
  | k + 1, acc, c :: rest => splitChunksAux k (c :: acc) rest

def splitPageText (t : String) : List String :=
  (splitChunksAux 3000 [] t.data).map String.mk

def pageChunks (pageNum : Nat) (p : PageData) (filename : String) : List Chunk :=
  if pageText p = "" then []
  else (splitPageText (pageText p)).map (fun s => ⟨s, pageNum, filename⟩)

def extractAux (filename : String) : Nat → List PageData → List Chunk
  | _, [] => []
  | n, p :: rest => pageChunks n p filename ++ extractAux filename (n + 1) rest

def extract_pdf_chunks (pages : List PageData) (filename : String) : List Chunk :=
  extractAux filename 1 pages

def dfltPage : PageData := ⟨"", none⟩

/-
Section: python string join. joinSep sep l is sep.join(l).
-/

def joinSep (sep : String) : List String → String
  | [] => ""
  | [x] => x
  | x :: y :: rest => x ++ sep ++ joinSep sep (y :: rest)

/-
Section: segment planner, the greedy packing loop of summarize_document
(src/backend/init module, lines 138 to 152). The token counter is the
count_tokens capability; the chunk texts arrive already sorted by page.
-/

def MAX_SEGMENT_TOKENS : Nat := 500

def planAux (ct : String → Nat) : List String → Nat → List String → List (List String)
  | cur, _, [] => if cur = [] then [] else [cur.reverse]
  | cur, curTok, t :: rest =>
    if curTok + ct t > MAX_SEGMENT_TOKENS ∧ cur ≠ [] then
      cur.reverse :: planAux ct [t] (ct t) rest
    else
      planAux ct (t :: cur) (curTok + ct t) rest

def planSegments (ct : String → Nat) (texts : List String) : List (List String) :=
  planAux ct [] 0 texts

def segmentStrings (ct : String → Nat) (texts : List String) : List String :=
  (planSegments ct texts).map (joinSep " ")

/-
Section: per-segment summarization loop of summarize_segments
(src/backend/summarize_utils.py, lines 11 to 34). The completion backend is
modelled per call index: backend i prompt is some response on success and
none when the http call or the json decoding raised.
-/

def segmentPrompt (seg : String) : String :=
  "Provide a detailed summary of the following book fragment. Capture the main events, characters, and important details. Be thorough but do not invent anything. Use only the information present in the text.\n\nFragment:\n" ++ seg ++ "\n\nDetailed summary:"

def errorMarker (i : Nat) : String :=
  "[Error summarizing segment " ++ toString (i + 1) ++ "]"

def summarizeSegmentsAux (backend : Nat → String → Option String) : Nat → List String → List String
  | _, [] => []
  | i, seg :: rest =>
    (match backend i (segmentPrompt seg) with
     | some r => r
     | none => errorMarker i) :: summarizeSegmentsAux backend (i + 1) rest

def segmentSummaries (backend : Nat → String → Option String) (segments : List String) : List String :=
  summarizeSegmentsAux backend 0 segments

/-
Section: recursive reduction, make_final_summary
(src/backend/summarize_utils.py, lines 36 to 64). The combining backend is
a total function: on an http failure the source returns a fixed error
string in place of the response, which is one more behaviour of that
function. The recursion of the source is not structurally decreasing, so
the model takes explicit fuel; none means the fuel ran out. The result
carries the list of combined-parts strings sent to the backend, one entry
per combining call, in call order.
-/

def labelParts : Nat → List String → List String
  | _, [] => []
  | i, s :: rest => ("PART " ++ toString (i + 1) ++ ":\n" ++ s) :: labelParts (i + 1) rest

def combineParts (parts : List String) : String :=
  joinSep "\n\n" (labelParts 0 parts)

def finalPrompt (combined : String) : String :=
  "From the following detailed summaries of a book (in order), write a comprehensive final summary. Capture the overall plot, character arcs, and key themes. Be thorough and coherent. Do not add anything not present in the summaries.\n\n" ++ combined ++ "\n\nComprehensive final summary:"

def COMBINE_TOKEN_LIMIT : Nat := 3500

def makeFinalSummary (complete : String → String) (ct : String → Nat) :
    Nat → List String → Option (String × List String)
  | 0, _ => none
  | fuel + 1, parts =>
    let combined := combineParts parts
    if ct combined < COMBINE_TOKEN_LIMIT then
      some (complete (finalPrompt combined), [combined])
    else
      let mid := parts.length / 2
      match makeFinalSummary complete ct fuel (parts.take mid) with
      | none => none
      | some (first, calls1) =>
        match makeFinalSummary complete ct fuel (parts.drop mid) with
        | none => none
        | some (second, calls2) =>
          match makeFinalSummary complete ct fuel [first, second] with
          | none => none
          | some (fin, calls3) => some (fin, calls1 ++ calls2 ++ calls3)

-- A single part long enough that its labelled combination reaches the
-- combining ceiling when tokens are counted as characters.
def c1BadPart : String := String.mk (List.replicate 4000 'a')

/-
Section: single-flight guard of summarize_document
(src/backend/init module, lines 119 to 179). The handler body runs on one
event loop; the membership test on _processing_summaries and the insertion
of the fresh future happen with no await between them, so they are one
atomic step. A request event models one caller reaching the handler: if an
entry is pending the caller awaits that future (a joiner), otherwise it
registers a future and starts the computation. A settle event models the
computation finishing: on success the source sets the future result and
returns it, and the finally block pops the entry, so the initiator and
every joiner receive the same response; on failure the finally block pops
the entry but no set_exception call exists anywhere in the source, so the
future never settles and every joiner keeps awaiting it forever, counted in
the abandoned field.
-/

inductive Outcome
  | ok (r : String)
  | err (e : String)
deriving DecidableEq

structure SFState where
  pending : Bool
  joiners : Nat
  runs : Nat
  delivered : List Outcome
  abandoned : Nat
deriving DecidableEq

inductive SFEvent
  | request
  | settle (oc : Outcome)

def sfStep (s : SFState) : SFEvent → SFState
  | SFEvent.request =>
    if s.pending then
      { s with joiners := s.joiners + 1 }
    else
      { s with pending := true, runs := s.runs + 1 }
  | SFEvent.settle oc =>
    if s.pending then
      match oc with
      | Outcome.ok r =>
        { s with pending := false, joiners := 0,
                 delivered := s.delivered ++ List.replicate (s.joiners + 1) (Outcome.ok r) }
      | Outcome.err e =>
        { s with pending := false, joiners := 0,
                 delivered := s.delivered ++ [Outcome.err e],
                 abandoned := s.abandoned + s.joiners }
    else s

def sfInit : SFState := ⟨false, 0, 0, [], 0⟩

def sfRun (evs : List SFEvent) : SFState := evs.foldl sfStep sfInit

/-
Section: summary cache persistence, summarize_segments lines 68 to 77.
The write is modelled as the trace of file operations the source performs
on the cache path: open with truncation, write of the serialized record,
close. applyFsOp gives the observable content of every path after each
operation, so intermediate states are the states a concurrent reader can
see.
-/

inductive FsOp
  | openTrunc (path : String)
  | writeAll (path : String) (data : String)
  | closeF (path : String)
  | renameF (src : String) (dst : String)
deriving DecidableEq

def isRenameOp : FsOp → Bool
  | FsOp.renameF _ _ => true
  | _ => false

def cachePath (uploadFolder fileId : String) : String :=
  uploadFolder ++ "/_summary_cache/" ++ fileId ++ "_summaries.json"

def persistSummaries (uploadFolder fileId payload : String) : List FsOp :=
  [FsOp.openTrunc (cachePath uploadFolder fileId),
   FsOp.writeAll (cachePath uploadFolder fileId) payload,
   FsOp.closeF (cachePath uploadFolder fileId)]

def applyFsOp (fs : String → Option String) : FsOp → String → Option String
  | FsOp.openTrunc p => fun q => if q = p then some "" else fs q
  | FsOp.writeAll p d => fun q => if q = p then some ((fs p).getD "" ++ d) else fs q
  | FsOp.closeF _ => fs
  | FsOp.renameF src dst => fun q => if q = dst then fs src else if q = src then none else fs q

def runFsOps (fs : String → Option String) (ops : List FsOp) : String → Option String :=
  ops.foldl applyFsOp fs

/-
Section: retrieval, rag_engine.find_relevant_chunks lines 76 to 99.
A row is one record the vector store returns for the query, with its
reported distance; distances are modelled as rationals. The source builds
one chunk per row, in the returned order, with similarity one minus the
distance.
-/

structure QueryRow where
  rowId : String
  text : String
  page : Nat
  distance : ℚ
deriving DecidableEq

structure RChunk where
  rowId : String
  text : String
  page : Nat
  similarity : ℚ
deriving DecidableEq

def find_relevant_chunks (rows : List QueryRow) : List RChunk :=
  rows.map (fun r => ⟨r.rowId, r.text, r.page, 1 - r.distance⟩)

/-
Section: answer prompt assembly, app.generate_with_context lines 95 to 145.
The context is the join of one labelled piece per retrieved chunk, in the
order retrieval returned them; no token counting and no truncation occur
anywhere in that function.
-/

def contextPiece (c : RChunk) : String :=
  "[Página " ++ toString c.page ++ "]: " ++ c.text

def contextText (chunks : List RChunk) : String :=
  joinSep "\n\n" (chunks.map contextPiece)

def answerPrompt (query : String) (chunks : List RChunk) : String :=
  "Eres un asistente que responde preguntas basándote ÚNICAMENTE en el contexto proporcionado.\n\nCONTEXTO (fragmentos del documento):\n" ++ contextText chunks ++ "\n\nINSTRUCCIONES:\n- Utiliza la información del contexto para responder a la pregunta.\n- Si el contexto contiene información relevante, responde con ella, indicando la página entre corchetes [Página X].\n- Si el contexto menciona parcialmente el tema, puedes decir \"El texto menciona a [tema] en las páginas...\" y resumir lo que dice.\n- Si no hay NADA en el contexto que responda a la pregunta, responde \"No encuentro esta información en el texto.\"\n- NO inventes nada que no esté en el contexto.\n\nPREGUNTA: " ++ query ++ "\n\nRESPUESTA:"

/-
Section: upload endpoint, upload_pdf (src/backend/init module, lines 51 to
82). The request is modelled by its filename, the generated file id, the
outcome of extraction (an exception or a chunk list) and the outcome of
indexing. The first component of the result is the trace of file events on
disk, the second the response. The temporary file write happens before the
try block; extraction, the empty check and indexing run inside it, and the
finally block removes the temporary file whenever it exists.
-/

inductive UploadStep
  | writeFile (path : String)
  | removeFile (path : String)
deriving DecidableEq

inductive UploadOutcome
  | httpError (code : Nat) (detail : String)
  | success (fileId : String) (filename : String) (chunks : Nat) (pages : Nat)
  | raised (e : String)
deriving DecidableEq

def tempPath (folder fileId : String) : String :=
  folder ++ "/" ++ fileId ++ ".pdf"

def upload_pdf (folder filename fileId : String)
    (extractRes : Except String (List Chunk)) (indexRes : Except String Nat) :
    List UploadStep × UploadOutcome :=
  if ¬ filename.endsWith ".pdf" then
    ([], UploadOutcome.httpError 400 "Only PDF files are accepted")
  else
    let temp := tempPath folder fileId
    match extractRes with
    | Except.error e =>
      ([UploadStep.writeFile temp, UploadStep.removeFile temp], UploadOutcome.raised e)
    | Except.ok chunks =>
      if chunks = [] then
        ([UploadStep.writeFile temp, UploadStep.removeFile temp],
         UploadOutcome.httpError 400 "Could not extract text from PDF")
      else
        match indexRes with
        | Except.error e =>
          ([UploadStep.writeFile temp, UploadStep.removeFile temp], UploadOutcome.raised e)
        | Except.ok n =>
          ([UploadStep.writeFile temp, UploadStep.removeFile temp],
           UploadOutcome.success fileId filename n ((chunks.map Chunk.page).dedup).length)

def runUploadFs (evs : List UploadStep) (p : String) : Bool :=
  evs.foldl (fun b e =>
    match e with
    | UploadStep.writeFile q => if q = p then true else b
    | UploadStep.removeFile q => if q = p then false else b) false

/-
Section: concrete inputs used by the witnesses and counterexamples.
-/

def c4EmptyPage : PageData := ⟨"", some ""⟩

def c4GoodPage : PageData :=
  ⟨"This page has a reasonable amount of native text for extraction.", none⟩

def c4ShortPage : PageData := ⟨"Short page.", none⟩

def c6BigChunk1 : RChunk := ⟨"a", String.mk (List.replicate 4000 'x'), 1, 1⟩

def c6BigChunk2 : RChunk := ⟨"b", String.mk (List.replicate 4000 'y'), 2, 1⟩

def c9Rows : List QueryRow := [⟨"a", "first text", 1, 0⟩, ⟨"b", "second text", 2, 1/2⟩]

/-
Theorems. Helper lemmas come first inside each group; the theorem carrying
a claim id is marked by its doc comment.
-/

theorem str_empty_append (s : String) : "" ++ s = s := by
  cases s with
  | mk d => rfl

/-- C10: for every upload request, on every path of the handler (filename
rejected, successful ingestion, extraction returning no chunks, an
exception raised by extraction or by indexing), the temporary pdf file is
absent from disk once the request returns: replaying the file-event trace
of upload_pdf leaves the temporary path deleted. -/
theorem C10_upload_cleanup (folder filename fileId : String)
    (extractRes : Except String (List Chunk)) (indexRes : Except String Nat) :
    runUploadFs (upload_pdf folder filename fileId extractRes indexRes).1
      (tempPath folder fileId) = false := by
  unfold upload_pdf
  split
  · simp [runUploadFs]
  · rcases extractRes with e | chunks
    · simp [runUploadFs]
    · by_cases h : chunks = []
      · simp [h, runUploadFs]
      · rcases indexRes with e | n <;> simp [h, runUploadFs]

theorem C10_witness :
    runUploadFs (upload_pdf "/app/uploads" "book.pdf" "id1"
        (Except.ok [⟨"some text", 1, "book.pdf"⟩]) (Except.ok 1)).1
      (tempPath "/app/uploads" "id1") = false :=
  C10_upload_cleanup "/app/uploads" "book.pdf" "id1"
    (Except.ok [⟨"some text", 1, "book.pdf"⟩]) (Except.ok 1)

/-- C2: evaluation of the single-flight model at the failing input. With
two concurrent requests for the same id, a successful computation delivers
the identical response to both callers and abandons nobody; a failing
computation delivers the failure only to the initiator, removes the
pending entry, and leaves the joined caller awaiting a future that is
never completed, because the source pops the entry in the finally block
without ever calling set_exception on the shared future. -/
theorem C2_abandoned_joiner :
    (sfRun [SFEvent.request, SFEvent.request, SFEvent.settle (Outcome.ok "S")]).delivered
        = [Outcome.ok "S", Outcome.ok "S"] ∧
    (sfRun [SFEvent.request, SFEvent.request, SFEvent.settle (Outcome.ok "S")]).abandoned = 0 ∧
    (sfRun [SFEvent.request, SFEvent.request, SFEvent.settle (Outcome.err "E")]).delivered
        = [Outcome.err "E"] ∧
    (sfRun [SFEvent.request, SFEvent.request, SFEvent.settle (Outcome.err "E")]).abandoned = 1 ∧
    (sfRun [SFEvent.request, SFEvent.request, SFEvent.settle (Outcome.err "E")]).pending = false :=
  ⟨rfl, rfl, rfl, rfl, rfl⟩

theorem sfStep_join (s : SFState) (h : s.pending = true) :
    sfStep s SFEvent.request = { s with joiners := s.joiners + 1 } := by
  simp [sfStep, h]

theorem sfFold_requests (k : Nat) : ∀ s : SFState, s.pending = true →
    List.foldl sfStep s (List.replicate k SFEvent.request)
      = { s with joiners := s.joiners + k } := by
  induction k with
  | zero => intro s h; simp
  | succ n ih =>
    intro s h
    rw [List.replicate_succ, List.foldl_cons, sfStep_join s h,
        ih { s with joiners := s.joiners + 1 } h]
    have : s.joiners + 1 + n = s.joiners + (n + 1) := by omega
    simp [this]

theorem sfRun_replicate (m : Nat) :
    sfRun (List.replicate (m + 1) SFEvent.request)
      = { pending := true, joiners := m, runs := 1, delivered := [], abandoned := 0 } := by
  unfold sfRun
  rw [List.replicate_succ, List.foldl_cons]
  have h0 : sfStep sfInit SFEvent.request
      = { pending := true, joiners := 0, runs := 1, delivered := [], abandoned := 0 } := rfl
  rw [h0, sfFold_requests m _ rfl]
  simp

/-- C3: n concurrent requests for the same document id while a computation
is in flight cause exactly one execution of the computation, however large
n is, and once the computation settles (with success or failure) a later
request starts a fresh execution rather than being blocked by the earlier
attempt. -/
theorem C3_single_flight (n : Nat) (hn : 0 < n) (oc : Outcome) :
    (sfRun (List.replicate n SFEvent.request)).runs = 1 ∧
    (sfRun (List.replicate n SFEvent.request ++ [SFEvent.settle oc, SFEvent.request])).runs = 2 := by
  obtain ⟨m, rfl⟩ : ∃ m, n = m + 1 := ⟨n - 1, by omega⟩
  constructor
  · rw [sfRun_replicate m]
  · show (List.foldl sfStep sfInit _).runs = 2
    rw [List.foldl_append]
    have h1 : List.foldl sfStep sfInit (List.replicate (m + 1) SFEvent.request)
        = { pending := true, joiners := m, runs := 1, delivered := [], abandoned := 0 } :=
      sfRun_replicate m
    rw [h1]
    cases oc <;> rfl

theorem C3_witness :
    (sfRun (List.replicate 3 SFEvent.request)).runs = 1 ∧
    (sfRun (List.replicate 3 SFEvent.request
        ++ [SFEvent.settle (Outcome.ok "r"), SFEvent.request])).runs = 2 :=
  C3_single_flight 3 (by decide) (Outcome.ok "r")

/-- C7 counterexample: the claim asserts an atomic write-temp-then-rename
replace with no observable partial state. Replaying the actual file
operations of summarize_segments (open with truncation, then write) from
an initial state where the cache record is absent, a concurrent reader
observing the cache path right after the open sees an empty file, which is
neither the absent old state nor the new record; moreover the trace
contains no rename operation at all. -/
theorem C7_counterexample :
    runFsOps (fun _ => none) ((persistSummaries "/app/uploads" "doc1" "record").take 1)
        (cachePath "/app/uploads" "doc1") = some "" ∧
    (some "" ≠ some "record") ∧
    ∀ op ∈ persistSummaries "/app/uploads" "doc1" "record", isRenameOp op = false := by
  refine ⟨rfl, by decide, ?_⟩
  intro op h
  simp [persistSummaries] at h
  rcases h with rfl | rfl | rfl <;> rfl

/-- C7 amended: when a summarization run completes, the record is persisted
to the cache path keyed by the document id by a direct in-place truncating
write, not by a temp-file rename: after the trace finishes the cache path
holds exactly the new payload, replacing any prior record whole, but the
trace contains no rename and the truncated intermediate state (an empty
file) is observable after the opening operation, so a concurrent reader
can see a partially written record. -/
theorem C7_amended (folder fileId payload : String) (fs : String → Option String) :
    runFsOps fs (persistSummaries folder fileId payload) (cachePath folder fileId)
        = some payload ∧
    runFsOps fs ((persistSummaries folder fileId payload).take 1) (cachePath folder fileId)
        = some "" ∧
    ∀ op ∈ persistSummaries folder fileId payload, isRenameOp op = false := by
  refine ⟨?_, ?_, ?_⟩
  · simp [runFsOps, persistSummaries, applyFsOp, str_empty_append]
  · simp [runFsOps, persistSummaries, applyFsOp]
  · intro op h
    simp [persistSummaries] at h
    rcases h with rfl | rfl | rfl <;> rfl

theorem C7_witness :
    runFsOps (fun _ => some "old") (persistSummaries "/app/uploads" "doc2" "fresh")
        (cachePath "/app/uploads" "doc2") = some "fresh" :=
  (C7_amended "/app/uploads" "doc2" "fresh" (fun _ => some "old")).1

/-- C9: every chunk built by find_relevant_chunks carries similarity equal
to exactly one minus the distance the vector store reported for its row,
and when the store returns rows in non-decreasing distance order (the
ranked order of the query call) the resulting chunks are in non-increasing
similarity order. -/
theorem C9_similarity (rows : List QueryRow)
    (h : rows.Pairwise (fun a b => a.distance ≤ b.distance)) :
    (find_relevant_chunks rows).map RChunk.similarity
        = rows.map (fun r => 1 - r.distance) ∧
    (find_relevant_chunks rows).Pairwise (fun a b => b.similarity ≤ a.similarity) := by
  constructor
  · simp [find_relevant_chunks]
  · unfold find_relevant_chunks
    rw [List.pairwise_map]
    exact h.imp (fun hab => sub_le_sub_left hab 1)

theorem C9_witness :
    (find_relevant_chunks c9Rows).map RChunk.similarity
        = c9Rows.map (fun r => 1 - r.distance) ∧
    (find_relevant_chunks c9Rows).Pairwise (fun a b => b.similarity ≤ a.similarity) :=
  C9_similarity c9Rows (by norm_num [c9Rows, List.pairwise_cons])

theorem planAux_join (ct : String → Nat) :
    ∀ (texts cur : List String) (curTok : Nat),
      (planAux ct cur curTok texts).join = cur.reverse ++ texts := by
  intro texts
  induction texts with
  | nil =>
    intro cur curTok
    by_cases h : cur = [] <;> simp [planAux, h]
  | cons t rest ih =>
    intro cur curTok
    simp only [planAux]
    split
    · simp [ih]
    · simp [ih]

theorem planAux_good (ct : String → Nat) :
    ∀ (texts cur : List String) (curTok : Nat),
      curTok = (cur.map ct).sum →
      (cur ≠ [] → ((cur.reverse.map ct).sum ≤ MAX_SEGMENT_TOKENS ∨
                   ∃ t, cur.reverse = [t] ∧ MAX_SEGMENT_TOKENS < ct t)) →
      ∀ seg ∈ planAux ct cur curTok texts,
        (seg.map ct).sum ≤ MAX_SEGMENT_TOKENS ∨
          ∃ t, seg = [t] ∧ MAX_SEGMENT_TOKENS < ct t := by
  intro texts
  induction texts with
  | nil =>
    intro cur curTok hsum hgood seg hseg
    by_cases h : cur = []
    · simp [planAux, h] at hseg
    · simp only [planAux, if_neg h] at hseg
      simp at hseg
      subst hseg
      exact hgood h
  | cons t rest ih =>
    intro cur curTok hsum hgood seg hseg
    simp only [planAux] at hseg
    split at hseg
    case isTrue hc =>
      rcases List.mem_cons.mp hseg with rfl | hmem
      · exact hgood hc.2
      · refine ih [t] (ct t) (by simp) ?_ seg hmem
        intro _
        by_cases hle : ct t ≤ MAX_SEGMENT_TOKENS
        · left; simpa using hle
        · right; exact ⟨t, by simp, by omega⟩
    case isFalse hc =>
      refine ih (t :: cur) (curTok + ct t) ?_ ?_ seg hseg
      · simp [hsum]; omega
      · intro _
        by_cases hcur : cur = []
        · subst hcur
          by_cases hle : ct t ≤ MAX_SEGMENT_TOKENS
          · left; simpa [hsum] using hle
          · right; exact ⟨t, by simp, by omega⟩
        · have hle : curTok + ct t ≤ MAX_SEGMENT_TOKENS := by
            rcases Nat.lt_or_ge MAX_SEGMENT_TOKENS (curTok + ct t) with hlt | hge
            · exact absurd ⟨hlt, hcur⟩ hc
            · exact hge
          left
          simp only [List.map_reverse, List.sum_reverse]
          simpa [hsum, Nat.add_comm] using hle

/-- C5: for every token counter and every ordered chunk-text sequence, the
greedy packing loop of summarize_document yields segments (as the lists of
chunk texts whose space join the source appends) such that every segment
has accumulated token count at most the 500-token ceiling or is one single
chunk whose own token count exceeds the ceiling (never dropped), and the
concatenation of the segments in order reconstructs the original chunk
order; the segment strings the source builds are exactly the space joins
of these segments. -/
theorem C5_segment_planner (ct : String → Nat) (texts : List String) :
    (∀ seg ∈ planSegments ct texts,
       (seg.map ct).sum ≤ MAX_SEGMENT_TOKENS ∨
         ∃ t, seg = [t] ∧ MAX_SEGMENT_TOKENS < ct t) ∧
    (planSegments ct texts).join = texts ∧
    segmentStrings ct texts = (planSegments ct texts).map (joinSep " ") := by
  refine ⟨planAux_good ct texts [] 0 rfl (by simp), ?_, rfl⟩
  simpa using planAux_join ct texts [] 0

theorem C5_witness :
    (∀ seg ∈ planSegments String.length ["aa", "bb"],
       (seg.map String.length).sum ≤ MAX_SEGMENT_TOKENS ∨
         ∃ t, seg = [t] ∧ MAX_SEGMENT_TOKENS < String.length t) ∧
    (planSegments String.length ["aa", "bb"]).join = ["aa", "bb"] ∧
    segmentStrings String.length ["aa", "bb"]
        = (planSegments String.length ["aa", "bb"]).map (joinSep " ") :=
  C5_segment_planner String.length ["aa", "bb"]

theorem summarizeSegmentsAux_length (backend : Nat → String → Option String) :
    ∀ (segs : List String) (start : Nat),
      (summarizeSegmentsAux backend start segs).length = segs.length := by
  intro segs
  induction segs with
  | nil => intro start; rfl
  | cons s rest ih => intro start; simp [summarizeSegmentsAux, ih]

theorem summarizeSegmentsAux_get (backend : Nat → String → Option String) :
    ∀ (segs : List String) (start i : Nat) (h : i < segs.length),
      (summarizeSegmentsAux backend start segs)[i]? =
        some (match backend (start + i) (segmentPrompt (segs.get ⟨i, h⟩)) with
              | some r => r
              | none => errorMarker (start + i)) := by
  intro segs
  induction segs with
  | nil => intro start i h; simp at h
  | cons s rest ih =>
    intro start i h
    cases i with
    | zero => simp [summarizeSegmentsAux]
    | succ j =>
      have hj : j < rest.length := by simpa using h
      have harith : start + (j + 1) = start + 1 + j := by omega
      simp only [summarizeSegmentsAux, List.getElem?_cons_succ, List.get_cons_succ, harith]
      exact ih (start + 1) j hj

/-- C8: for every backend behaviour and every segment list, the
per-segment loop of summarize_segments returns exactly one summary per
input segment; a segment on which the completion call fails contributes
the explicit error-marker string for its one-based position instead of
aborting the run, and a segment on which the call succeeds contributes the
returned response unchanged. -/
theorem C8_error_marker (backend : Nat → String → Option String) (segments : List String) :
    (segmentSummaries backend segments).length = segments.length ∧
    ∀ i (h : i < segments.length),
      (backend i (segmentPrompt (segments.get ⟨i, h⟩)) = none →
        (segmentSummaries backend segments)[i]? = some (errorMarker i)) ∧
      (∀ r, backend i (segmentPrompt (segments.get ⟨i, h⟩)) = some r →
        (segmentSummaries backend segments)[i]? = some r) := by
  refine ⟨summarizeSegmentsAux_length backend segments 0, ?_⟩
  intro i h
  have hget := summarizeSegmentsAux_get backend segments 0 i h
  rw [Nat.zero_add] at hget
  constructor
  · intro hb
    show (summarizeSegmentsAux backend 0 segments)[i]? = some (errorMarker i)
    rw [hget, hb]
  · intro r hb
    show (summarizeSegmentsAux backend 0 segments)[i]? = some r
    rw [hget, hb]

theorem C8_witness :
    (segmentSummaries (fun _ _ => none) ["segment one", "segment two"]).length = 2 ∧
    (segmentSummaries (fun _ _ => none) ["segment one", "segment two"])[0]?
        = some (errorMarker 0) := by
  refine ⟨(C8_error_marker (fun _ _ => none) ["segment one", "segment two"]).1, ?_⟩
  exact ((C8_error_marker (fun _ _ => none) ["segment one", "segment two"]).2 0 (by decide)).1 rfl

theorem str_mk_length (l : List Char) : (String.mk l).length = l.length := rfl

theorem joinSep_length_ge (sep : String) :
    ∀ l : List String, (l.map String.length).sum ≤ (joinSep sep l).length := by
  intro l
  induction l with
  | nil => simp [joinSep]
  | cons x rest ih =>
    cases rest with
    | nil => simp [joinSep]
    | cons y rest2 =>
      simp only [joinSep, String.length_append, List.map_cons, List.sum_cons] at ih ⊢
      omega

theorem contextPiece_length_ge (c : RChunk) : c.text.length ≤ (contextPiece c).length := by
  simp only [contextPiece, String.length_append]
  omega

/-- C6 counterexample: the claim asserts that the assembled answer context
never exceeds a token ceiling of about 6000. With token counting
instantiated as character counting, two retrieved chunks of 4000
characters each produce an assembled context of 8026 characters: the
source embeds every retrieved chunk in full and consults no ceiling. -/
theorem C6_counterexample :
    (contextText [c6BigChunk1, c6BigChunk2]).length = 8026 ∧
    6000 < (contextText [c6BigChunk1, c6BigChunk2]).length := by
  have h : contextText [c6BigChunk1, c6BigChunk2] =
      ("[Página 1]: " ++ String.mk (List.replicate 4000 'x')) ++ "\n\n" ++
      ("[Página 2]: " ++ String.mk (List.replicate 4000 'y')) := rfl
  rw [h]
  simp only [String.length_append, str_mk_length, List.length_replicate]
  constructor
  · decide
  · decide

/-- C6 amended: generate_with_context assembles the answer context by
joining one labelled piece per retrieved chunk, in the order retrieval
returned them (descending similarity), with no token ceiling and no
truncation: the assembled context is at least as long as the sum of all
retrieved chunk texts, and the final prompt contains the whole context,
however many chunks were retrieved. -/
theorem C6_amended (chunks : List RChunk) (query : String) :
    (chunks.map (fun c => c.text.length)).sum ≤ (contextText chunks).length ∧
    (contextText chunks).length ≤ (answerPrompt query chunks).length := by
  constructor
  · show (chunks.map (fun c => c.text.length)).sum
        ≤ (joinSep "\n\n" (chunks.map contextPiece)).length
    calc (chunks.map (fun c => c.text.length)).sum
        ≤ ((chunks.map contextPiece).map String.length).sum := by
          rw [List.map_map]
          exact List.sum_le_sum (fun c _ => contextPiece_length_ge c)
      _ ≤ (joinSep "\n\n" (chunks.map contextPiece)).length :=
          joinSep_length_ge "\n\n" (chunks.map contextPiece)
  · simp only [answerPrompt, String.length_append]
    omega

theorem C6_witness :
    ([c6BigChunk1].map (fun c => c.text.length)).sum ≤ (contextText [c6BigChunk1]).length ∧
    (contextText [c6BigChunk1]).length ≤ (answerPrompt "pregunta" [c6BigChunk1]).length :=
  C6_amended [c6BigChunk1] "pregunta"

theorem str_eq_empty_of_data {t : String} (h : t.data = []) : t = "" := by
  cases t with
  | mk d =>
    have hd : d = [] := h
    rw [hd]

theorem str_mk_ne_empty {l : List Char} (h : l ≠ []) : String.mk l ≠ "" := by
  intro he
  exact h (congrArg String.data he)

theorem splitChunksAux_ne_nil :
    ∀ (l : List Char) (cap : Nat) (acc : List Char),
      acc ≠ [] ∨ l ≠ [] → splitChunksAux cap acc l ≠ [] := by
  intro l
  induction l with
  | nil =>
    intro cap acc h
    rcases h with h | h
    · simp [splitChunksAux, h]
    · exact absurd rfl h
  | cons c rest ih =>
    intro cap acc _
    cases cap with
    | zero => simp [splitChunksAux]
    | succ k =>
      simp only [splitChunksAux]
      exact ih k (c :: acc) (Or.inl (by simp))

theorem splitChunksAux_bound :
    ∀ (l : List Char) (cap : Nat) (acc : List Char),
      acc.length + cap = 3000 →
      ∀ p ∈ splitChunksAux cap acc l, p.length ≤ 3000 ∧ p ≠ [] := by
  intro l
  induction l with
  | nil =>
    intro cap acc hinv p hp
    by_cases h : acc = []
    · simp [splitChunksAux, h] at hp
    · simp only [splitChunksAux, if_neg h] at hp
      simp at hp
      subst hp
      refine ⟨by simp; omega, ?_⟩
      simpa using h
  | cons c rest ih =>
    intro cap acc hinv p hp
    cases cap with
    | zero =>
      simp only [splitChunksAux] at hp
      rcases List.mem_cons.mp hp with rfl | hmem
      · have hlen : acc.reverse.length = 3000 := by simp; omega
        refine ⟨by omega, ?_⟩
        intro he
        rw [he] at hlen
        simp at hlen
      · exact ih 2999 [c] (by simp) p hmem
    | succ k =>
      simp only [splitChunksAux] at hp
      exact ih k (c :: acc) (by simp; omega) p hp

theorem pageChunks_mem {n : Nat} {p : PageData} {filename : String} {c : Chunk}
    (h : c ∈ pageChunks n p filename) :
    c.page = n ∧ c.filename = filename ∧ c.text ≠ "" ∧ c.text.length ≤ 3000 ∧
      pageText p ≠ "" := by
  by_cases ht : pageText p = ""
  · simp [pageChunks, ht] at h
  · simp only [pageChunks, if_neg ht, splitPageText] at h
    rcases List.mem_map.mp h with ⟨s, hs, rfl⟩
    rcases List.mem_map.mp hs with ⟨piece, hpiece, rfl⟩
    obtain ⟨hle, hne⟩ := splitChunksAux_bound (pageText p).data 3000 [] (by simp) piece hpiece
    exact ⟨rfl, rfl, str_mk_ne_empty hne, by simpa [str_mk_length] using hle, ht⟩

theorem pageChunks_cover {n : Nat} {p : PageData} {filename : String}
    (h : pageText p ≠ "") : ∃ c ∈ pageChunks n p filename, c.page = n := by
  have hdata : (pageText p).data ≠ [] := fun hd => h (str_eq_empty_of_data hd)
  have hsplit : splitChunksAux 3000 [] (pageText p).data ≠ [] :=
    splitChunksAux_ne_nil _ 3000 [] (Or.inr hdata)
  rcases List.exists_mem_of_ne_nil _ hsplit with ⟨piece, hpiece⟩
  refine ⟨⟨String.mk piece, n, filename⟩, ?_, rfl⟩
  simp only [pageChunks, if_neg h, splitPageText]
  exact List.mem_map.mpr ⟨String.mk piece, List.mem_map.mpr ⟨piece, hpiece, rfl⟩, rfl⟩

theorem extractAux_mem (filename : String) :
    ∀ (pages : List PageData) (n : Nat) (c : Chunk),
      c ∈ extractAux filename n pages →
      n ≤ c.page ∧ c.page < n + pages.length ∧ c.filename = filename ∧
      c.text ≠ "" ∧ c.text.length ≤ 3000 ∧
      pageText (pages.getD (c.page - n) dfltPage) ≠ "" := by
  intro pages
  induction pages with
  | nil => intro n c h; simp [extractAux] at h
  | cons p rest ih =>
    intro n c h
    simp only [extractAux] at h
    rcases List.mem_append.mp h with hl | hr
    · obtain ⟨hpage, hfn, hne, hlen, hpt⟩ := pageChunks_mem hl
      refine ⟨by omega, by simp only [List.length_cons]; omega, hfn, hne, hlen, ?_⟩
      have h0 : c.page - n = 0 := by omega
      rw [h0]
      simpa using hpt
    · obtain ⟨hge, hlt, hfn, hne, hlen, hpt⟩ := ih (n + 1) c hr
      refine ⟨by omega, by simp only [List.length_cons]; omega, hfn, hne, hlen, ?_⟩
      have h1 : c.page - n = (c.page - (n + 1)) + 1 := by omega
      rw [h1, List.getD_cons_succ]
      exact hpt

theorem extractAux_cover (filename : String) :
    ∀ (pages : List PageData) (n i : Nat), i < pages.length →
      pageText (pages.getD i dfltPage) ≠ "" →
      ∃ c ∈ extractAux filename n pages, c.page = n + i := by
  intro pages
  induction pages with
  | nil => intro n i h; simp at h
  | cons p rest ih =>
    intro n i hi hne
    cases i with
    | zero =>
      have hp : pageText p ≠ "" := by simpa using hne
      rcases @pageChunks_cover n p filename hp with ⟨c, hc, hpage⟩
      refine ⟨c, ?_, by omega⟩
      simp only [extractAux]
      exact List.mem_append.mpr (Or.inl hc)
    | succ j =>
      have hj : j < rest.length := by simpa using hi
      have hne2 : pageText (rest.getD j dfltPage) ≠ "" := by simpa using hne
      rcases ih (n + 1) j hj hne2 with ⟨c, hc, hpage⟩
      refine ⟨c, ?_, by omega⟩
      simp only [extractAux]
      exact List.mem_append.mpr (Or.inr hc)

theorem sorted_of_all_eq (l : List Nat) (n : Nat) (h : ∀ x ∈ l, x = n) :
    l.Sorted (· ≤ ·) := by
  induction l with
  | nil => simp
  | cons a rest ih =>
    rw [List.sorted_cons]
    refine ⟨fun b hb => ?_, ih (fun x hx => h x (List.mem_cons_of_mem a hx))⟩
    rw [h a (List.mem_cons_self a rest), h b (List.mem_cons_of_mem a hb)]

theorem extractAux_sorted (filename : String) :
    ∀ (pages : List PageData) (n : Nat),
      ((extractAux filename n pages).map Chunk.page).Sorted (· ≤ ·) := by
  intro pages
  induction pages with
  | nil => intro n; simp [extractAux]
  | cons p rest ih =>
    intro n
    simp only [extractAux, List.map_append]
    show List.Pairwise (· ≤ ·) _
    rw [List.pairwise_append]
    refine ⟨?_, ih (n + 1), ?_⟩
    · apply sorted_of_all_eq _ n
      intro x hx
      rcases List.mem_map.mp hx with ⟨c, hc, rfl⟩
      exact (pageChunks_mem hc).1
    · intro a ha b hb
      rcases List.mem_map.mp ha with ⟨c, hc, rfl⟩
      rcases List.mem_map.mp hb with ⟨d, hd, rfl⟩
      have h1 := (pageChunks_mem hc).1
      have h2 := (extractAux_mem filename rest (n + 1) d hd).1
      omega

/-- C4 counterexample: the claim asserts that every page yields at least
one chunk and that a page whose cleaned text is below the roughly
50-character content threshold yields a single unreadable-page placeholder
chunk. In the extraction path the package actually imports
(pdf_utils.extract_pdf_chunks), a one-page document whose page yields no
text at all (native extraction empty, recognition returning empty) produces
an empty chunk list, so the page is covered by no chunk and no placeholder
exists; and a one-page document whose cleaned text is the 11-character
string Short page. produces one ordinary text chunk carrying that text,
not a placeholder. -/
theorem C4_counterexample :
    extract_pdf_chunks [c4EmptyPage] "doc.pdf" = [] ∧
    ([c4EmptyPage] : List PageData).length = 1 ∧
    (¬ ∃ c ∈ extract_pdf_chunks [c4EmptyPage] "doc.pdf", c.page = 1) ∧
    extract_pdf_chunks [c4ShortPage] "doc.pdf" = [⟨"Short page.", 1, "doc.pdf"⟩] := by
  refine ⟨rfl, rfl, ?_, by decide⟩
  rintro ⟨c, hc, -⟩
  have h : extract_pdf_chunks [c4EmptyPage] "doc.pdf" = [] := rfl
  rw [h] at hc
  exact List.not_mem_nil c hc

/-- C4 amended: for every document the file of which can be opened, the
extraction path the package imports (pdf_utils.extract_pdf_chunks) emits
chunks page by page in non-decreasing page order; every chunk carries a
page number between 1 and the page count, the given filename, a non-empty
text of at most 3000 characters; and page i (1-based i+1) is covered by at
least one chunk exactly when its cleaned text is non-empty — a page whose
cleaned text is empty is dropped with no placeholder, and a page whose
cleaned text is shorter than 50 characters but non-empty yields ordinary
chunks of that text. -/
theorem C4_amended (pages : List PageData) (filename : String) :
    ((extract_pdf_chunks pages filename).map Chunk.page).Sorted (· ≤ ·) ∧
    (∀ c ∈ extract_pdf_chunks pages filename,
       1 ≤ c.page ∧ c.page ≤ pages.length ∧ c.text ≠ "" ∧ c.text.length ≤ 3000 ∧
       c.filename = filename) ∧
    (∀ i, i < pages.length →
       (pageText (pages.getD i dfltPage) ≠ "" ↔
        ∃ c ∈ extract_pdf_chunks pages filename, c.page = i + 1)) := by
  refine ⟨extractAux_sorted filename pages 1, ?_, ?_⟩
  · intro c hc
    obtain ⟨h1, h2, hfn, hne, hlen, -⟩ := extractAux_mem filename pages 1 c hc
    exact ⟨h1, by omega, hne, hlen, hfn⟩
  · intro i hi
    constructor
    · intro hne
      rcases extractAux_cover filename pages 1 i hi hne with ⟨c, hc, hp⟩
      exact ⟨c, hc, by omega⟩
    · rintro ⟨c, hc, hp⟩
      have hpt := (extractAux_mem filename pages 1 c hc).2.2.2.2.2
      have h0 : c.page - 1 = i := by omega
      rwa [h0] at hpt

theorem C4_witness :
    pageText (([c4GoodPage] : List PageData).getD 0 dfltPage) ≠ "" ∧
    ∃ c ∈ extract_pdf_chunks [c4GoodPage] "book.pdf", c.page = 1 := by
  refine ⟨by decide, ?_⟩
  exact ((C4_amended [c4GoodPage] "book.pdf").2.2 0 (by decide)).mp (by decide)

theorem makeFinalSummary_succ_fit (complete : String → String) (ct : String → Nat)
    (f : Nat) (parts : List String)
    (h : ct (combineParts parts) < COMBINE_TOKEN_LIMIT) :
    makeFinalSummary complete ct (f + 1) parts
      = some (complete (finalPrompt (combineParts parts)), [combineParts parts]) := by
  simp only [makeFinalSummary]
  rw [if_pos h]

theorem makeFinalSummary_succ_notfit (complete : String → String) (ct : String → Nat)
    (f : Nat) (parts : List String)
    (h : ¬ ct (combineParts parts) < COMBINE_TOKEN_LIMIT) :
    makeFinalSummary complete ct (f + 1) parts =
      match makeFinalSummary complete ct f (parts.take (parts.length / 2)) with
      | none => none
      | some (first, calls1) =>
        match makeFinalSummary complete ct f (parts.drop (parts.length / 2)) with
        | none => none
        | some (second, calls2) =>
          match makeFinalSummary complete ct f [first, second] with
          | none => none
          | some (fin, calls3) => some (fin, calls1 ++ calls2 ++ calls3) := by
  simp only [makeFinalSummary]
  rw [if_neg h]

theorem c1bad_not_fits :
    ¬ String.length (combineParts [c1BadPart]) < COMBINE_TOKEN_LIMIT := by
  have h : combineParts [c1BadPart] = "PART 1:\n" ++ c1BadPart := rfl
  have hlen : c1BadPart.length = 4000 := by
    show (List.replicate 4000 'a').length = 4000
    exact List.length_replicate 4000 'a'
  rw [h, String.length_append, hlen]
  decide

theorem c1_nonterm :
    ∀ fuel : Nat, makeFinalSummary id String.length fuel [c1BadPart] = none := by
  intro fuel
  induction fuel with
  | zero => rfl
  | succ f ih =>
    rw [makeFinalSummary_succ_notfit id String.length f [c1BadPart] c1bad_not_fits]
    have ht : [c1BadPart].take ([c1BadPart].length / 2) = [] := rfl
    have hd : [c1BadPart].drop ([c1BadPart].length / 2) = [c1BadPart] := rfl
    rw [ht, hd]
    cases h : makeFinalSummary id String.length f [] with
    | none => rfl
    | some pr =>
      obtain ⟨first, calls1⟩ := pr
      rw [ih]

theorem makeFinalSummary_total (complete : String → String) (ct : String → Nat)
    (h0 : ct (combineParts []) < COMBINE_TOKEN_LIMIT)
    (h2 : ∀ u v : String, ct (combineParts [complete u, complete v]) < COMBINE_TOKEN_LIMIT) :
    ∀ (fuel : Nat) (parts : List String),
      parts.length + 2 ≤ fuel →
      (∀ p ∈ parts, ct (combineParts [p]) < COMBINE_TOKEN_LIMIT) →
      ∃ r calls, makeFinalSummary complete ct fuel parts = some (r, calls) ∧
        (∀ c ∈ calls, ct c < COMBINE_TOKEN_LIMIT) ∧
        (∃ q, r = complete q) ∧
        (ct (combineParts parts) < COMBINE_TOKEN_LIMIT →
          r = complete (finalPrompt (combineParts parts)) ∧ calls = [combineParts parts]) := by
  intro fuel
  induction fuel with
  | zero => intro parts hlen h1; exact absurd hlen (by omega)
  | succ f ih =>
    intro parts hlen h1
    by_cases hfit : ct (combineParts parts) < COMBINE_TOKEN_LIMIT
    · refine ⟨complete (finalPrompt (combineParts parts)), [combineParts parts],
        makeFinalSummary_succ_fit complete ct f parts hfit, ?_, ⟨_, rfl⟩, fun _ => ⟨rfl, rfl⟩⟩
      intro c hc
      simp at hc
      subst hc
      exact hfit
    · have hlen2 : 2 ≤ parts.length := by
        rcases parts with _ | ⟨p, _ | ⟨q, rest⟩⟩
        · exact absurd h0 hfit
        · exact absurd (h1 p (by simp)) hfit
        · simp
      have htlen : (parts.take (parts.length / 2)).length + 2 ≤ f := by
        simp only [List.length_take]
        omega
      have hdlen : (parts.drop (parts.length / 2)).length + 2 ≤ f := by
        simp only [List.length_drop]
        omega
      obtain ⟨r1, c1, he1, hc1, ⟨q1, hq1⟩, -⟩ := ih (parts.take (parts.length / 2)) htlen
        (fun p hp => h1 p (List.take_subset _ _ hp))
      obtain ⟨r2, c2, he2, hc2, ⟨q2, hq2⟩, -⟩ := ih (parts.drop (parts.length / 2)) hdlen
        (fun p hp => h1 p (List.drop_subset _ _ hp))
      have hpairfit : ct (combineParts [r1, r2]) < COMBINE_TOKEN_LIMIT := by
        rw [hq1, hq2]
        exact h2 q1 q2
      obtain ⟨f1, rfl⟩ : ∃ f1, f = f1 + 1 := ⟨f - 1, by omega⟩
      have he3 := makeFinalSummary_succ_fit complete ct f1 [r1, r2] hpairfit
      refine ⟨complete (finalPrompt (combineParts [r1, r2])),
        c1 ++ c2 ++ [combineParts [r1, r2]], ?_, ?_, ⟨_, rfl⟩, fun hf => absurd hf hfit⟩
      · rw [makeFinalSummary_succ_notfit complete ct (f1 + 1) parts hfit]
        simp [he1, he2, he3]
      · intro c hc
        rcases List.mem_append.mp hc with hc2m | hc2m
        · rcases List.mem_append.mp hc2m with hm | hm
          · exact hc1 c hm
          · exact hc2 c hm
        · have : c = combineParts [r1, r2] := by simpa using hc2m
          subst this
          exact hpairfit

/-- C1 counterexample: the claim asserts that make_final_summary terminates
for every list of per-segment summary strings. With the token counter
instantiated as character counting and the completion backend as the
identity, the one-element list holding a 4000-character summary never
terminates: its labelled combination is 4008 characters, at or above the
3500 ceiling, and the midpoint split of a one-element list is the empty
list and the same one-element list again, so the recursion reproduces
itself and no amount of fuel yields a result. -/
theorem C1_counterexample :
    ¬ ∃ fuel res, makeFinalSummary id String.length fuel [c1BadPart] = some res := by
  rintro ⟨fuel, res, h⟩
  rw [c1_nonterm fuel] at h
  exact Option.noConfusion h

/-- C1 amended: the recursive reduction terminates with fuel bounded by the
part count whenever every single part fits the combining ceiling alone and
any two backend responses fit it together (as is forced by the bounded
response lengths the backend is invoked with); every combining call it
performs is made with a combined-parts string whose token count is under
the 3500 ceiling; when the labelled concatenation of all parts fits under
the ceiling it performs exactly that one combining call; and when it does
not fit, the computation is exactly: reduce the first half of the midpoint
split, reduce the second half, then reduce the two partial summaries
together. -/
theorem C1_amended (complete : String → String) (ct : String → Nat) (parts : List String)
    (h0 : ct (combineParts []) < COMBINE_TOKEN_LIMIT)
    (h1 : ∀ p ∈ parts, ct (combineParts [p]) < COMBINE_TOKEN_LIMIT)
    (h2 : ∀ u v : String, ct (combineParts [complete u, complete v]) < COMBINE_TOKEN_LIMIT) :
    (∃ r calls, makeFinalSummary complete ct (parts.length + 2) parts = some (r, calls) ∧
       (∀ c ∈ calls, ct c < COMBINE_TOKEN_LIMIT) ∧
       (ct (combineParts parts) < COMBINE_TOKEN_LIMIT →
         r = complete (finalPrompt (combineParts parts)) ∧ calls = [combineParts parts])) ∧
    (∀ f, ¬ ct (combineParts parts) < COMBINE_TOKEN_LIMIT →
       makeFinalSummary complete ct (f + 1) parts =
         match makeFinalSummary complete ct f (parts.take (parts.length / 2)) with
         | none => none
         | some (first, calls1) =>
           match makeFinalSummary complete ct f (parts.drop (parts.length / 2)) with
           | none => none
           | some (second, calls2) =>
             match makeFinalSummary complete ct f [first, second] with
             | none => none
             | some (fin, calls3) => some (fin, calls1 ++ calls2 ++ calls3)) := by
  constructor
  · obtain ⟨r, calls, he, hc, -, hfit⟩ :=
      makeFinalSummary_total complete ct h0 h2 (parts.length + 2) parts (by omega) h1
    exact ⟨r, calls, he, hc, hfit⟩
  · intro f hnf
    exact makeFinalSummary_succ_notfit complete ct f parts hnf

theorem C1_witness :
    ∃ r calls,
      makeFinalSummary (fun _ => "S") String.length 4 ["alpha", "beta"] = some (r, calls) ∧
      (∀ c ∈ calls, String.length c < COMBINE_TOKEN_LIMIT) ∧
      (String.length (combineParts ["alpha", "beta"]) < COMBINE_TOKEN_LIMIT →
        r = (fun _ => "S") (finalPrompt (combineParts ["alpha", "beta"])) ∧
        calls = [combineParts ["alpha", "beta"]]) :=
  (C1_amended (fun _ => "S") String.length ["alpha", "beta"]
    (by decide) (by decide)
    (fun u v => by
      show (combineParts ["S", "S"]).length < COMBINE_TOKEN_LIMIT
      decide)).1
